import Mathlib

set_option linter.unnecessarySeqFocus false
set_option linter.unusedVariables false

/-!
Verification of the sequential Game of Life implementation
(`GameOfLife_sequential.c`) against its specification.

The grid is a flat row-major list of C `int` values of length `N * N`.
The engine (`play`) computes one generation into a freshly allocated
buffer and then copies it back over the input array; the driver loop in
`main` iterates `play` `t` times.
-/

namespace GameOfLife

/-- Toroidal decrement of an index, as computed by the C code:
`((i-1)+N) % N` in `int` arithmetic (used for `up` and for `left`). -/
def wrapDec (N i : Nat) : Nat := (((i : Int) - 1 + (N : Int)) % (N : Int)).toNat

/-- Toroidal increment of an index, as computed by the C code:
`(i+1) % N` (used for `down` and for `right`). -/
def wrapInc (N i : Nat) : Nat := (i + 1) % N

/-- Array access `X[N*i + j]` (row-major flat indexing). Accesses in the
C code are always in bounds; the default `0` is never consulted on a
well-formed grid. -/
def cell (X : List Int) (N i j : Nat) : Int := X.getD (N * i + j) 0

/-- The live-neighbor sum computed in `play`: the eight explicit terms
`X[N*up+left] + X[N*up+j] + X[N*up+right] + X[N*i+left] + X[N*i+right] +
X[N*down+left] + X[N*down+j] + X[N*down+right]`. -/
def neighborSum (X : List Int) (N i j : Nat) : Int :=
  let up := wrapDec N i
  let down := wrapInc N i
  let left := wrapDec N j
  let right := wrapInc N j
  cell X N up left + cell X N up j + cell X N up right +
  cell X N i left + cell X N i right +
  cell X N down left + cell X N down j + cell X N down right

/-- The per-cell transition of `play`: birth when dead with sum 3, death
when alive with sum < 2 or sum > 3, otherwise unchanged. -/
def nextCell (X : List Int) (N i j : Nat) : Int :=
  let sum := neighborSum X N i j
  if cell X N i j = 0 ∧ sum = 3 then 1
  else if cell X N i j = 1 ∧ (sum < 2 ∨ sum > 3) then 0
  else cell X N i j

/-- The cells visited by the nested loop `for i in [0,N) for j in [0,N)`,
in loop order: position `k` of the list is the pair `(k / N, k % N)`. -/
def allCells (N : Nat) : List (Nat × Nat) :=
  (List.range (N * N)).map (fun k => (k / N, k % N))

/-- Loop state of `play`: the freshly allocated buffer `new` and the
three classification counters. -/
structure PlayState where
  buf : List Int
  births : Nat
  deaths : Nat
  ok : Nat
  deriving Repr, DecidableEq

/-- One iteration of the body of the nested loop in `play` at cell
`(i, j)`: writes `new[i*N+j]` and bumps exactly one counter. -/
def playCellStep (X : List Int) (N : Nat) (s : PlayState) (p : Nat × Nat) : PlayState :=
  let i := p.1
  let j := p.2
  let sum := neighborSum X N i j
  if cell X N i j = 0 ∧ sum = 3 then
    { s with buf := s.buf.set (i * N + j) 1, births := s.births + 1 }
  else if cell X N i j = 1 ∧ (sum < 2 ∨ sum > 3) then
    { s with buf := s.buf.set (i * N + j) 0, deaths := s.deaths + 1 }
  else
    { s with buf := s.buf.set (i * N + j) (cell X N i j), ok := s.ok + 1 }

/-- The whole nested loop of `play`, starting from the freshly allocated
buffer (modelled zero-filled; every position is overwritten) and zeroed
counters. -/
def playLoop (X : List Int) (N : Nat) : PlayState :=
  (allCells N).foldl (playCellStep X N) ⟨List.replicate (N * N) 0, 0, 0, 0⟩

/-- The copy-back loop of `play`: `X[i*N+j] = new[i*N+j]` for every cell. -/
def copyBack (X nw : List Int) (N : Nat) : List Int :=
  (allCells N).foldl (fun acc p => acc.set (p.1 * N + p.2) (nw.getD (p.1 * N + p.2) 0)) X

/-- `play` for one step: compute the next generation into the fresh
buffer, then copy it back over `X`. The returned list is the final
content of the array `X`. -/
def play (X : List Int) (N : Nat) : List Int := copyBack X (playLoop X N).buf N

/-- Number of cells classified as births by the loop in `play`. -/
def births (X : List Int) (N : Nat) : Nat := (playLoop X N).births

/-- Number of cells classified as deaths by the loop in `play`. -/
def deaths (X : List Int) (N : Nat) : Nat := (playLoop X N).deaths

/-- Number of cells classified as unchanged by the loop in `play`. -/
def okCount (X : List Int) (N : Nat) : Nat := (playLoop X N).ok

/-- Modelled from the spec (§4.1): the pure simultaneous-update step,
mapping every cell of a frozen snapshot of the input grid to its next
state. -/
def stepSpec (X : List Int) (N : Nat) : List Int :=
  (List.range (N * N)).map (fun k => nextCell X N (k / N) (k % N))

/-- Modelled from the spec (§4.1): sum of the eight cells at row indices
`(i-1+N) mod N`, `i`, `(i+1) mod N` and column indices `(j-1+N) mod N`,
`j`, `(j+1) mod N`, excluding the centre `(i, j)` itself: the full 3×3
patch sum minus the centre term. -/
def specNeighborSum (X : List Int) (N i j : Nat) : Int :=
  let rows := [wrapDec N i, i, wrapInc N i]
  let cols := [wrapDec N j, j, wrapInc N j]
  (rows.map (fun r => (cols.map (fun c => cell X N r c)).sum)).sum - cell X N i j

/-- The driver loop of `main`: `for(gen=0; gen<t; gen++) play(table, N);`. -/
def run (X : List Int) (N t : Nat) : List Int :=
  (List.range t).foldl (fun Y _ => play Y N) X

/-- Observable events of `read_from_file`, in program order. -/
inductive Ev where
  | openCall
  | freadCall
  | dieCall
  | warnCall
  | printCall
  | closeCall
  deriving Repr, DecidableEq

/-- Event trace of `read_from_file`, exactly in source order: `fopen`,
then `fread`, then the null-pointer check (`die`), then the zero-size
check (`die`), then the count-mismatch check (`warn`), then the report
and `fclose`. `openOk` is whether `fopen` succeeded; `size` is the
element count `fread` returned. -/
def readFromFileTrace (openOk : Bool) (size N : Nat) : List Ev :=
  [Ev.openCall, Ev.freadCall] ++
  (if !openOk then [Ev.dieCall]
   else if size = 0 then [Ev.dieCall]
   else if N * N ≠ size then [Ev.warnCall, Ev.printCall, Ev.closeCall]
   else [Ev.printCall, Ev.closeCall])

/-- Destination filename computed by `write_to_file`:
`sprintf(newfilename, "table%dx%d_new.bin", N, N)`. The source
`filename` argument is not used in the computation. -/
def writeDest (_filename : String) (N : Nat) : String :=
  "table" ++ toString N ++ "x" ++ toString N ++ "_new.bin"

/-- Branch condition of the birth case in `play`, as a Boolean predicate
on a cell. -/
def birthB (X : List Int) (N : Nat) (p : Nat × Nat) : Bool :=
  decide (cell X N p.1 p.2 = 0 ∧ neighborSum X N p.1 p.2 = 3)

/-- Branch condition of the death case in `play`, as a Boolean predicate
on a cell. -/
def deathB (X : List Int) (N : Nat) (p : Nat × Nat) : Bool :=
  decide (cell X N p.1 p.2 = 1 ∧ (neighborSum X N p.1 p.2 < 2 ∨ neighborSum X N p.1 p.2 > 3))

/-- Branch condition of the unchanged case in `play`: neither of the two
explicit branch guards holds. -/
def okB (X : List Int) (N : Nat) (p : Nat × Nat) : Bool :=
  !birthB X N p && !deathB X N p

lemma div_mul_add_mod (k N : Nat) : k / N * N + k % N = k := by
  rw [Nat.mul_comm]; exact Nat.div_add_mod k N

lemma foldl_set_length (g : Nat → Int) (n : Nat) (init : List Int) :
    ((List.range n).foldl (fun buf k => buf.set k (g k)) init).length = init.length := by
  induction n with
  | zero => simp
  | succ n ih => rw [List.range_succ, List.foldl_append]; simpa using ih

lemma foldl_set_getElem? (g : Nat → Int) (n : Nat) (init : List Int) (m : Nat) :
    ((List.range n).foldl (fun buf k => buf.set k (g k)) init)[m]? =
      if m < n ∧ m < init.length then some (g m) else init[m]? := by
  induction n with
  | zero => simp
  | succ n ih =>
    rw [List.range_succ, List.foldl_append]
    simp only [List.foldl_cons, List.foldl_nil]
    rw [List.getElem?_set, foldl_set_length]
    by_cases h : n = m
    · subst h
      by_cases hm : n < init.length
      · rw [if_pos rfl, if_pos hm, if_pos ⟨Nat.lt_succ_self n, hm⟩]
      · rw [if_pos rfl, if_neg hm, if_neg (fun hc => hm hc.2),
          List.getElem?_eq_none (Nat.le_of_not_lt hm)]
    · rw [if_neg h, ih]
      exact if_congr (by omega) rfl rfl

lemma playCellStep_buf (X : List Int) (N : Nat) (s : PlayState) (p : Nat × Nat) :
    (playCellStep X N s p).buf = s.buf.set (p.1 * N + p.2) (nextCell X N p.1 p.2) := by
  simp only [playCellStep, nextCell]
  split_ifs <;> rfl

lemma foldl_playCellStep_buf (X : List Int) (N : Nat) (l : List (Nat × Nat)) (s : PlayState) :
    (l.foldl (playCellStep X N) s).buf =
      l.foldl (fun b p => b.set (p.1 * N + p.2) (nextCell X N p.1 p.2)) s.buf := by
  induction l generalizing s with
  | nil => rfl
  | cons a l ih => rw [List.foldl_cons, List.foldl_cons, ih, playCellStep_buf]

lemma playLoop_buf_eq (X : List Int) (N : Nat) :
    (playLoop X N).buf =
      (List.range (N * N)).foldl (fun buf k => buf.set k (nextCell X N (k / N) (k % N)))
        (List.replicate (N * N) 0) := by
  unfold playLoop allCells
  rw [foldl_playCellStep_buf, List.foldl_map]
  congr 1
  funext b k
  simp only [div_mul_add_mod]

lemma copyBack_eq (X nw : List Int) (N : Nat) :
    copyBack X nw N =
      (List.range (N * N)).foldl (fun acc k => acc.set k (nw.getD k 0)) X := by
  unfold copyBack allCells
  rw [List.foldl_map]
  congr 1
  funext b k
  simp only [div_mul_add_mod]

lemma playLoop_buf_getElem? (X : List Int) (N : Nat) (m : Nat) :
    ((playLoop X N).buf)[m]? =
      if m < N * N then some (nextCell X N (m / N) (m % N)) else none := by
  rw [playLoop_buf_eq, foldl_set_getElem?]
  simp only [List.length_replicate]
  by_cases h : m < N * N
  · simp [h]
  · simp only [h, and_self, if_neg, if_false]
    exact List.getElem?_eq_none (by simpa using Nat.le_of_not_lt h)

lemma stepSpec_getElem? (X : List Int) (N : Nat) (m : Nat) :
    (stepSpec X N)[m]? =
      if m < N * N then some (nextCell X N (m / N) (m % N)) else none := by
  unfold stepSpec
  by_cases h : m < N * N
  · rw [List.getElem?_map, List.getElem?_range h, if_pos h, Option.map_some']
  · rw [if_neg h]
    exact List.getElem?_eq_none (by simpa using Nat.le_of_not_lt h)

lemma play_getElem? (X : List Int) (N : Nat) (hX : X.length = N * N) (m : Nat) :
    (play X N)[m]? =
      if m < N * N then some (nextCell X N (m / N) (m % N)) else none := by
  unfold play
  rw [copyBack_eq, foldl_set_getElem?, hX]
  by_cases h : m < N * N
  · rw [if_pos ⟨h, h⟩, if_pos h]
    rw [List.getD_eq_getElem?_getD, playLoop_buf_getElem?, if_pos h, Option.getD_some]
  · rw [if_neg (by omega), if_neg h]
    exact List.getElem?_eq_none (by omega)

lemma play_eq_stepSpec (X : List Int) (N : Nat) (hX : X.length = N * N) :
    play X N = stepSpec X N := by
  apply List.ext_getElem?
  intro m
  rw [play_getElem? X N hX, stepSpec_getElem?]

lemma playCellStep_births (X : List Int) (N : Nat) (s : PlayState) (p : Nat × Nat) :
    (playCellStep X N s p).births = s.births + (if birthB X N p then 1 else 0) := by
  by_cases h1 : cell X N p.1 p.2 = 0 ∧ neighborSum X N p.1 p.2 = 3
  · simp [playCellStep, birthB, h1]
  · by_cases h2 : cell X N p.1 p.2 = 1 ∧
      (neighborSum X N p.1 p.2 < 2 ∨ neighborSum X N p.1 p.2 > 3)
    · simp [playCellStep, birthB, h1, h2]
    · simp [playCellStep, birthB, h1, h2]

lemma playCellStep_deaths (X : List Int) (N : Nat) (s : PlayState) (p : Nat × Nat) :
    (playCellStep X N s p).deaths = s.deaths + (if deathB X N p then 1 else 0) := by
  by_cases h1 : cell X N p.1 p.2 = 0 ∧ neighborSum X N p.1 p.2 = 3
  · have hc : deathB X N p = false := by
      simp only [deathB, decide_eq_false_iff_not]
      rintro ⟨hq, -⟩
      rw [h1.1] at hq
      exact absurd hq (by decide)
    simp [playCellStep, h1, hc]
  · by_cases h2 : cell X N p.1 p.2 = 1 ∧
      (neighborSum X N p.1 p.2 < 2 ∨ neighborSum X N p.1 p.2 > 3)
    · simp [playCellStep, deathB, h1, h2]
    · simp [playCellStep, deathB, h1, h2]

lemma playCellStep_ok (X : List Int) (N : Nat) (s : PlayState) (p : Nat × Nat) :
    (playCellStep X N s p).ok = s.ok + (if okB X N p then 1 else 0) := by
  by_cases h1 : cell X N p.1 p.2 = 0 ∧ neighborSum X N p.1 p.2 = 3
  · simp [playCellStep, okB, birthB, h1]
  · by_cases h2 : cell X N p.1 p.2 = 1 ∧
      (neighborSum X N p.1 p.2 < 2 ∨ neighborSum X N p.1 p.2 > 3)
    · simp [playCellStep, okB, deathB, h1, h2]
    · simp [playCellStep, okB, birthB, deathB, h1, h2]

lemma foldl_playCellStep_births (X : List Int) (N : Nat) (l : List (Nat × Nat))
    (s : PlayState) :
    (l.foldl (playCellStep X N) s).births = s.births + l.countP (birthB X N) := by
  induction l generalizing s with
  | nil => simp
  | cons a l ih =>
    rw [List.foldl_cons, ih, playCellStep_births, List.countP_cons]
    cases hb : birthB X N a <;> simp [hb] <;> omega

lemma foldl_playCellStep_deaths (X : List Int) (N : Nat) (l : List (Nat × Nat))
    (s : PlayState) :
    (l.foldl (playCellStep X N) s).deaths = s.deaths + l.countP (deathB X N) := by
  induction l generalizing s with
  | nil => simp
  | cons a l ih =>
    rw [List.foldl_cons, ih, playCellStep_deaths, List.countP_cons]
    cases hb : deathB X N a <;> simp [hb] <;> omega

lemma foldl_playCellStep_ok (X : List Int) (N : Nat) (l : List (Nat × Nat))
    (s : PlayState) :
    (l.foldl (playCellStep X N) s).ok = s.ok + l.countP (okB X N) := by
  induction l generalizing s with
  | nil => simp
  | cons a l ih =>
    rw [List.foldl_cons, ih, playCellStep_ok, List.countP_cons]
    cases hb : okB X N a <;> simp [hb] <;> omega

lemma countP_partition {α : Type} (l : List α) (p q : α → Bool)
    (h : ∀ a ∈ l, ¬(p a = true ∧ q a = true)) :
    l.countP p + l.countP q + l.countP (fun a => !p a && !q a) = l.length := by
  induction l with
  | nil => simp
  | cons a l ih =>
    have hl := ih (fun b hb => h b (List.mem_cons_of_mem a hb))
    have ha := h a (List.mem_cons_self a l)
    rw [List.countP_cons, List.countP_cons, List.countP_cons]
    cases hp : p a <;> cases hq : q a <;> simp [hp, hq] at ha ⊢ <;> omega

lemma birthB_deathB_disjoint (X : List Int) (N : Nat) (p : Nat × Nat) :
    ¬(birthB X N p = true ∧ deathB X N p = true) := by
  simp only [birthB, deathB, decide_eq_true_eq]
  rintro ⟨⟨h0, -⟩, ⟨h1, -⟩⟩
  rw [h0] at h1
  exact absurd h1 (by decide)

lemma length_allCells (N : Nat) : (allCells N).length = N * N := by
  simp [allCells]

lemma run_succ (X : List Int) (N t : Nat) : run X N (t + 1) = play (run X N t) N := by
  simp [run, List.range_succ]

lemma run_eq_iterate (X : List Int) (N t : Nat) :
    run X N t = (fun Y => play Y N)^[t] X := by
  induction t with
  | zero => rfl
  | succ t ih => rw [run_succ, ih, Function.iterate_succ_apply']

lemma cell_cases (X : List Int) (N i j : Nat) : cell X N i j ∈ X ∨ cell X N i j = 0 := by
  unfold cell
  by_cases h : N * i + j < X.length
  · left
    rw [List.getD_eq_getElem?_getD, List.getElem?_eq_getElem h, Option.getD_some]
    exact List.getElem_mem h
  · right
    rw [List.getD_eq_getElem?_getD, List.getElem?_eq_none (Nat.le_of_not_lt h)]
    rfl

lemma nextCell_def (X : List Int) (N i j : Nat) : nextCell X N i j =
    if cell X N i j = 0 ∧ neighborSum X N i j = 3 then 1
    else if cell X N i j = 1 ∧ (neighborSum X N i j < 2 ∨ neighborSum X N i j > 3) then 0
    else cell X N i j := rfl

lemma nextCell_mem (X : List Int) (N i j : Nat)
    (hB : ∀ v ∈ X, v = 0 ∨ v = 1) : nextCell X N i j = 0 ∨ nextCell X N i j = 1 := by
  rw [nextCell_def]
  split_ifs with h1 h2
  · right; rfl
  · left; rfl
  · rcases cell_cases X N i j with h | h
    · exact hB _ h
    · left; exact h

lemma idx_lt (N i j : Nat) (hi : i < N) (hj : j < N) : N * i + j < N * N :=
  calc N * i + j < N * i + N := by omega
  _ = N * (i + 1) := by ring
  _ ≤ N * N := Nat.mul_le_mul_left N hi

lemma idx_div (N i j : Nat) (hj : j < N) : (N * i + j) / N = i := by
  rw [Nat.add_comm, Nat.add_mul_div_left _ _ (by omega : 0 < N),
    Nat.div_eq_of_lt hj, Nat.zero_add]

lemma idx_mod (N i j : Nat) (hj : j < N) : (N * i + j) % N = j := by
  rw [Nat.add_comm, Nat.add_mul_mod_self_left, Nat.mod_eq_of_lt hj]

/-- C1: for every grid whose cells are all in {DEAD, ALIVE} and every
cell position, one step of the simulation sets that cell's next state
exactly per the rule table: a DEAD cell with live-neighbor sum 3 becomes
ALIVE, a DEAD cell with sum ≠ 3 stays DEAD, an ALIVE cell with sum < 2
or sum > 3 becomes DEAD, and an ALIVE cell with sum in {2, 3} stays
ALIVE; no other transition occurs. -/
theorem C1_rule_table (X : List Int) (N i j : Nat) (hX : X.length = N * N)
    (hB : ∀ v ∈ X, v = 0 ∨ v = 1) (hi : i < N) (hj : j < N) :
    (cell X N i j = 0 ∧ neighborSum X N i j = 3 →
      (play X N).getD (N * i + j) 0 = 1) ∧
    (cell X N i j = 0 ∧ neighborSum X N i j ≠ 3 →
      (play X N).getD (N * i + j) 0 = 0) ∧
    (cell X N i j = 1 ∧ (neighborSum X N i j < 2 ∨ neighborSum X N i j > 3) →
      (play X N).getD (N * i + j) 0 = 0) ∧
    (cell X N i j = 1 ∧ 2 ≤ neighborSum X N i j ∧ neighborSum X N i j ≤ 3 →
      (play X N).getD (N * i + j) 0 = 1) := by
  have hm : N * i + j < N * N := idx_lt N i j hi hj
  have heq : (play X N).getD (N * i + j) 0 = nextCell X N i j := by
    rw [List.getD_eq_getElem?_getD, play_getElem? X N hX, if_pos hm,
      idx_div N i j hj, idx_mod N i j hj, Option.getD_some]
  refine ⟨?_, ?_, ?_, ?_⟩
  · rintro ⟨hc, hs⟩
    rw [heq, nextCell_def, if_pos ⟨hc, hs⟩]
  · rintro ⟨hc, hs⟩
    rw [heq, nextCell_def, if_neg (fun hq => hs hq.2),
      if_neg (fun hq => by rw [hc] at hq; exact absurd hq.1 (by decide))]
    exact hc
  · rintro ⟨hc, hs⟩
    rw [heq, nextCell_def,
      if_neg (fun hq => by rw [hc] at hq; exact absurd hq.1 (by decide)),
      if_pos ⟨hc, hs⟩]
  · rintro ⟨hc, hs⟩
    rw [heq, nextCell_def,
      if_neg (fun hq => by rw [hc] at hq; exact absurd hq.1 (by decide)),
      if_neg (fun hq => by rcases hq.2 with h | h <;> omega)]
    exact hc

/-- Witness for C1 at a concrete 3×3 grid: the dead corner cell (0,0)
has exactly three live neighbors and is born. -/
theorem C1_rule_table_witness :
    (play [0, 1, 1, 1, 0, 0, 0, 0, 0] 3).getD (3 * 0 + 0) 0 = 1 :=
  (C1_rule_table [0, 1, 1, 1, 0, 0, 0, 0, 0] 3 0 0 (by decide) (by decide)
    (by decide) (by decide)).1 ⟨by decide, by decide⟩

/-- C2: for every grid with N ≥ 1, the live-neighbor sum used by the
step is the sum of the eight toroidal neighbors (the 3×3 modular patch
minus the centre); moreover the wrapped row/column index of 0 is N-1, so
the neighbor sum at corner (0,0) counts the cell at (N-1, N-1). -/
theorem C2_toroidal_neighbors (X : List Int) (N i j : Nat) (hN : 0 < N) :
    neighborSum X N i j = specNeighborSum X N i j ∧
    wrapDec N 0 = N - 1 ∧
    neighborSum X N 0 0 =
      cell X N (N - 1) (N - 1) + cell X N (N - 1) 0 + cell X N (N - 1) (wrapInc N 0) +
      cell X N 0 (N - 1) + cell X N 0 (wrapInc N 0) +
      cell X N (wrapInc N 0) (N - 1) + cell X N (wrapInc N 0) 0 +
      cell X N (wrapInc N 0) (wrapInc N 0) := by
  have hw : wrapDec N 0 = N - 1 := by
    unfold wrapDec
    have h1 : ((0 : Nat) : Int) - 1 + (N : Int) = (N : Int) - 1 := by push_cast; ring
    rw [h1, Int.emod_eq_of_lt (by omega) (by omega)]
    omega
  refine ⟨?_, hw, ?_⟩
  · simp only [neighborSum, specNeighborSum, List.map_cons, List.map_nil,
      List.sum_cons, List.sum_nil]
    ring
  · simp only [neighborSum, hw]

/-- Witness for C2 at a concrete 3×3 grid in which only the cell
(2, 2) is alive; the corner (0,0) sees it through the wraparound. -/
theorem C2_toroidal_neighbors_witness :
    neighborSum [0, 0, 0, 0, 0, 0, 0, 0, 1] 3 0 0 =
      specNeighborSum [0, 0, 0, 0, 0, 0, 0, 0, 1] 3 0 0 :=
  (C2_toroidal_neighbors [0, 0, 0, 0, 0, 0, 0, 0, 1] 3 0 0 (by decide)).1

/-- C3: the in-place update performed by `play` (compute into a fresh
buffer, then copy back) equals the pure simultaneous-update function on
a frozen snapshot of the input grid. -/
theorem C3_simultaneous_update (X : List Int) (N : Nat) (hX : X.length = N * N) :
    play X N = stepSpec X N :=
  play_eq_stepSpec X N hX

/-- Witness for C3 on a concrete 2×2 grid. -/
theorem C3_simultaneous_update_witness :
    play [0, 1, 1, 0] 2 = stepSpec [0, 1, 1, 0] 2 :=
  C3_simultaneous_update [0, 1, 1, 0] 2 (by decide)

/-- C4: for every grid and every single step, the birth, death and
unchanged counters of `play` sum to exactly N·N, so the internal
consistency warning branch is unreachable. -/
theorem C4_classification_total (X : List Int) (N : Nat) :
    births X N + deaths X N + okCount X N = N * N := by
  have hb : births X N = (allCells N).countP (birthB X N) := by
    unfold births playLoop
    rw [foldl_playCellStep_births]
    exact Nat.zero_add _
  have hd : deaths X N = (allCells N).countP (deathB X N) := by
    unfold deaths playLoop
    rw [foldl_playCellStep_deaths]
    exact Nat.zero_add _
  have ho : okCount X N =
      (allCells N).countP (fun a => !birthB X N a && !deathB X N a) := by
    unfold okCount playLoop
    rw [foldl_playCellStep_ok]
    exact Nat.zero_add _
  rw [hb, hd, ho, ← length_allCells N]
  exact countP_partition (allCells N) (birthB X N) (deathB X N)
    (fun p _ => birthB_deathB_disjoint X N p)

/-- C5: the driver loop applies `play` exactly t times in strict
sequence, so it equals the t-fold iteration of the step; at t = 0 the
grid is returned unchanged. -/
theorem C5_driver_iterates (X : List Int) (N t : Nat) :
    run X N t = (fun Y => play Y N)^[t] X ∧ run X N 0 = X :=
  ⟨run_eq_iterate X N t, rfl⟩

/-- C6: every cell of the grid produced by one step from a {0,1}-valued
grid is again in {0,1}. -/
theorem C6_cells_stay_boolean (X : List Int) (N : Nat) (hX : X.length = N * N)
    (hB : ∀ v ∈ X, v = 0 ∨ v = 1) : ∀ v ∈ play X N, v = 0 ∨ v = 1 := by
  rw [play_eq_stepSpec X N hX]
  intro v hv
  simp only [stepSpec, List.mem_map] at hv
  obtain ⟨k, -, rfl⟩ := hv
  exact nextCell_mem X N _ _ hB

/-- Witness for C6 on a concrete 2×2 grid (both cells of the result die,
and 0 is a member of the result). -/
theorem C6_cells_stay_boolean_witness : (0 : Int) = 0 ∨ (0 : Int) = 1 :=
  C6_cells_stay_boolean [0, 1, 1, 0] 2 (by decide) (by decide) 0 (by decide)

/-- C7 (amended): the destination filename computed by `write_to_file`
is `table{N}x{N}_new.bin`, independent of the source filename; the
source file is therefore not overwritten provided its name differs from
that fixed destination name. -/
theorem C7_destination_name (filename other : String) (N : Nat)
    (h : filename ≠ writeDest filename N) :
    writeDest filename N = writeDest other N ∧ writeDest filename N ≠ filename :=
  ⟨rfl, fun he => h he.symm⟩

/-- Witness for C7 with a typical input filename. -/
theorem C7_destination_name_witness :
    writeDest "table4x4.bin" 4 = writeDest "other.bin" 4 ∧
    writeDest "table4x4.bin" 4 ≠ "table4x4.bin" :=
  C7_destination_name "table4x4.bin" "other.bin" 4 (by decide)

/-- Counterexample to C7 as stated: when the input file is itself named
`table4x4_new.bin` (with N = 4), the computed destination equals the
source, so the original input file is overwritten. -/
theorem C7_destination_name_counterexample :
    writeDest "table4x4_new.bin" 4 = "table4x4_new.bin" := by decide

/-- C8 (code bug): when `fopen` fails, `read_from_file` still calls
`fread` on the null stream before the null check runs, so the trace on
an unopenable input is open, then fread, then die: a read is attempted
before the fatal termination, contrary to the claim. -/
theorem C8_fread_before_null_check (size N : Nat) :
    readFromFileTrace false size N = [Ev.openCall, Ev.freadCall, Ev.dieCall] := rfl

/-- C9: a positive element count smaller than N·N is non-fatal: the
trace warns and runs to completion with no die event, while a read of
zero elements dies. -/
theorem C9_short_read_nonfatal (size N : Nat) (h1 : 0 < size) (h2 : size < N * N) :
    readFromFileTrace true size N =
      [Ev.openCall, Ev.freadCall, Ev.warnCall, Ev.printCall, Ev.closeCall] ∧
    Ev.dieCall ∉ readFromFileTrace true size N ∧
    readFromFileTrace true 0 N = [Ev.openCall, Ev.freadCall, Ev.dieCall] := by
  have ht : readFromFileTrace true size N =
      [Ev.openCall, Ev.freadCall, Ev.warnCall, Ev.printCall, Ev.closeCall] := by
    unfold readFromFileTrace
    simp [show ¬size = 0 by omega, show N * N ≠ size by omega]
  refine ⟨ht, ?_, rfl⟩
  rw [ht]
  decide

/-- Witness for C9: two of four expected elements were read. -/
theorem C9_short_read_nonfatal_witness :
    readFromFileTrace true 2 2 =
      [Ev.openCall, Ev.freadCall, Ev.warnCall, Ev.printCall, Ev.closeCall] ∧
    Ev.dieCall ∉ readFromFileTrace true 2 2 ∧
    readFromFileTrace true 0 2 = [Ev.openCall, Ev.freadCall, Ev.dieCall] :=
  C9_short_read_nonfatal 2 2 (by decide) (by decide)

/-- C10: for N = 1 both wrapped indices collapse to 0, the neighbor sum
is eight times the cell's own value, and one step maps every 1×1 grid
with cell value in {0,1} to the all-DEAD grid. -/
theorem C10_one_by_one (v : Int) (hv : v = 0 ∨ v = 1) :
    wrapDec 1 0 = 0 ∧ wrapInc 1 0 = 0 ∧
    neighborSum [v] 1 0 0 = 8 * v ∧ play [v] 1 = [0] := by
  rcases hv with rfl | rfl <;> exact ⟨rfl, rfl, by decide, by decide⟩

/-- Witness for C10 at the live 1×1 grid: the cell dies of
overpopulation. -/
theorem C10_one_by_one_witness :
    wrapDec 1 0 = 0 ∧ wrapInc 1 0 = 0 ∧
    neighborSum [(1 : Int)] 1 0 0 = 8 * 1 ∧ play [(1 : Int)] 1 = [0] :=
  C10_one_by_one 1 (Or.inr rfl)


end GameOfLife
